import Mathlib

/-!
# Verification of the TennisCourt reservation ledger

Shallow embedding of `src/tennis.py` (class `TennisCourt` plus the helper
`one_hour_from_now_or_less` and the interactive booking workflow of
`__main__` case '1'), together with the calendar arithmetic of Python's
`datetime` module that the code relies on (`isocalendar`, `strftime`,
`strptime`).

Instants are modelled at minute precision (the precision of the program:
all datetimes are created by `strptime("%d.%m.%Y %H:%M")` or by adding
whole minutes) as the number of minutes since 0001-01-01 00:00 of the
proleptic Gregorian calendar, the calendar of Python's `datetime`.
Comparison of Python datetimes coincides with comparison of these minute
counts, and `timedelta` addition is exact addition of minutes.
Day ordinals (Python's `date.toordinal()`: 0001-01-01 is day 1) are
`minutes / 1440 + 1`.
-/

/-! ## Calendar arithmetic (Python `datetime` internals)

Transcribed from CPython's `datetime` module: `_is_leap`,
`_days_before_year`, `_days_before_month`, `_ymd2ord`, `_ord2ymd`,
`_isoweek1monday` and `date.isocalendar`. -/

/-- CPython `_is_leap`. -/
def isLeap (y : Nat) : Bool :=
  y % 4 == 0 && (y % 100 != 0 || y % 400 == 0)

/-- CPython `_DAYS_IN_MONTH` table (February without the leap day). -/
def daysInMonthTbl (m : Nat) : Nat :=
  match m with
  | 1 => 31 | 2 => 28 | 3 => 31 | 4 => 30 | 5 => 31 | 6 => 30
  | 7 => 31 | 8 => 31 | 9 => 30 | 10 => 31 | 11 => 30 | 12 => 31
  | _ => 0

/-- CPython `_DAYS_BEFORE_MONTH` table (ignoring leap years). -/
def daysBeforeMonthTbl (m : Nat) : Nat :=
  match m with
  | 1 => 0 | 2 => 31 | 3 => 59 | 4 => 90 | 5 => 120 | 6 => 151
  | 7 => 181 | 8 => 212 | 9 => 243 | 10 => 273 | 11 => 304 | 12 => 334
  | _ => 0

/-- CPython `_days_in_month`. -/
def daysInMonth (y m : Nat) : Nat :=
  daysInMonthTbl m + (if m = 2 ∧ isLeap y then 1 else 0)

/-- CPython `_days_before_month`. -/
def daysBeforeMonth (y m : Nat) : Nat :=
  daysBeforeMonthTbl m + (if 2 < m ∧ isLeap y then 1 else 0)

/-- CPython `_days_before_year`: days in all years before year `y`. -/
def daysBeforeYear (y : Nat) : Nat :=
  (y - 1) * 365 + (y - 1) / 4 - (y - 1) / 100 + (y - 1) / 400

/-- CPython `_ymd2ord`: proleptic Gregorian ordinal of a date
(0001-01-01 has ordinal 1). -/
def ymd2ord (y m d : Nat) : Nat :=
  daysBeforeYear y + daysBeforeMonth y m + d

/-- Month/day lookup used by CPython `_ord2ymd`: from a 0-based day of the
year (with the year's leap flag) to (month, day). -/
def monthDayOfYearDay (leap : Bool) (n : Nat) : Nat × Nat :=
  let month := (n + 50) / 32
  let preceding := daysBeforeMonthTbl month + (if 2 < month ∧ leap then 1 else 0)
  if n < preceding then
    let month' := month - 1
    let preceding' := preceding - (daysInMonthTbl month' + (if month' = 2 ∧ leap then 1 else 0))
    (month', n - preceding' + 1)
  else
    (month, n - preceding + 1)

/-- CPython `_ord2ymd`: date (year, month, day) of a proleptic Gregorian
ordinal. -/
def ord2ymd (n : Nat) : Nat × Nat × Nat :=
  let n0 := n - 1
  let n400 := n0 / 146097
  let r0 := n0 % 146097
  let n100 := r0 / 36524
  let r1 := r0 % 36524
  let n4 := r1 / 1461
  let r2 := r1 % 1461
  let n1 := r2 / 365
  let r3 := r2 % 365
  let year := n400 * 400 + 1 + n100 * 100 + n4 * 4 + n1
  if n1 = 4 ∨ n100 = 4 then
    (year - 1, 12, 31)
  else
    let leap := n1 == 3 && (n4 != 24 || n100 == 3)
    let md := monthDayOfYearDay leap r3
    (year, md.1, md.2)

/-- CPython `_isoweek1monday`: ordinal of the Monday starting ISO week 1
of `year` (the week containing the first Thursday of the year). -/
def isoweek1monday (year : Nat) : Int :=
  let firstday : Int := (ymd2ord year 1 1 : Nat)
  let firstweekday := (firstday + 6) % 7
  let week1monday := firstday - firstweekday
  if 3 < firstweekday then week1monday + 7 else week1monday

/-- CPython `date.isocalendar` (year and week components) of a proleptic
Gregorian ordinal. -/
def isocalendar (ordinal : Nat) : Int × Int :=
  let year := (ord2ymd ordinal).1
  let week := ((ordinal : Int) - isoweek1monday year) / 7
  if week < 0 then
    (((year : Int) - 1), ((ordinal : Int) - isoweek1monday (year - 1)) / 7 + 1)
  else if 52 ≤ week ∧ isoweek1monday (year + 1) ≤ (ordinal : Int) then
    ((year : Int) + 1, 1)
  else
    ((year : Int), week + 1)

/-! ## Instants

A `DT` is an instant at minute precision: minutes since 0001-01-01 00:00.
Python datetime comparison, and the `timedelta` arithmetic the program
performs (whole minutes and hours), are order-preserving bijections with
this representation, so `<`, `≤`, `+ n` minutes below mean exactly what
they mean on the Python datetimes. -/

/-- An instant: minutes since 0001-01-01 00:00 (proleptic Gregorian). -/
abbrev DT := Int

/-- The instant of year/month/day hour:minute (builds the minute count the
way Python derives it from the stored fields). -/
def dtm (y mo d h mi : Nat) : DT :=
  (((ymd2ord y mo d - 1) * 1440 + h * 60 + mi : Nat) : Int)

/-- The day ordinal (Python `datetime.date().toordinal()`) of an instant. -/
def ordOf (m : DT) : Nat := m.toNat / 1440 + 1

/-- ISO calendar week number of an instant:
`datetime.isocalendar(dt).week` in the source. -/
def isoWeekOf (m : DT) : Int := (isocalendar (ordOf m)).2

/-- ISO calendar (year, week) of an instant: identifies an ISO calendar
week absolutely, unlike the bare week number. -/
def isoYearWeekOf (m : DT) : Int × Int := isocalendar (ordOf m)

/-! ## The reservation ledger (`src/tennis.py`, class `TennisCourt`) -/

/-- Embeds `class Reservation` of `tennis.py`: name, start and end instants. -/
structure Reservation where
  name : String
  start_date : DT
  end_date : DT
deriving DecidableEq, Repr

/-- The in-memory ledger `self.reservations` of `TennisCourt`. -/
abbrev Court := List Reservation

/-- Embeds `TennisCourt.period_overlaps`: scans `self.reservations` and returns
`True` on the first reservation with
`start_dt < rsvn.end_date and end_dt > rsvn.start_date`.
It reads the ledger and returns a `bool`; the ledger is not modified. -/
def period_overlaps (c : Court) (start_dt end_dt : DT) : Bool :=
  match c with
  | [] => false
  | rsvn :: rest =>
    if start_dt < rsvn.end_date ∧ end_dt > rsvn.start_date then true
    else period_overlaps rest start_dt end_dt

/-- Embeds `TennisCourt.date_not_available`: scans `self.reservations` and
returns `True` on the first reservation with
`rsvn.start_date <= start_dt < rsvn.end_date`. Read-only. -/
def date_not_available (c : Court) (start_dt : DT) : Bool :=
  match c with
  | [] => false
  | rsvn :: rest =>
    if rsvn.start_date ≤ start_dt ∧ start_dt < rsvn.end_date then true
    else date_not_available rest start_dt

/-- Loop body of `TennisCourt.two_reservations_per_week`: walks the
ledger keeping `counter`, incrementing on every reservation with the given
name whose start has ISO week number `week_no`, and returns `True` as soon
as `counter > 1`. -/
def twoPerWeekLoop (name : String) (week_no : Int) : Court → Nat → Bool
  | [], _ => false
  | rsvn :: rest, counter =>
    if name = rsvn.name ∧ isoWeekOf rsvn.start_date = week_no then
      if 1 < counter + 1 then true
      else twoPerWeekLoop name week_no rest (counter + 1)
    else twoPerWeekLoop name week_no rest counter

/-- Embeds `TennisCourt.two_reservations_per_week`: `week_no` is
`datetime.isocalendar(start_dt).week` — the bare ISO week number of the
candidate start, with no year component. -/
def two_reservations_per_week (c : Court) (name : String) (start_dt : DT) : Bool :=
  twoPerWeekLoop name (isoWeekOf start_dt) c 0

/-- Loop of `TennisCourt.next_available_datetime`: folds the loop over
`self.reservations` with the running candidate `closest_time`. -/
def nextAvailLoop (c : Court) (closest_time : DT) : DT :=
  match c with
  | [] => closest_time
  | rsvn :: rest =>
    if rsvn.start_date ≥ closest_time + 30 then closest_time
    else if closest_time ≤ rsvn.end_date then nextAvailLoop rest rsvn.end_date
    else nextAvailLoop rest closest_time

/-- Embeds `TennisCourt.next_available_datetime` with `closest_time = start_dt`. -/
def next_available_datetime (c : Court) (start_dt : DT) : DT :=
  nextAvailLoop c start_dt

/-- Loop of `TennisCourt.available_periods` over the remaining candidate
periods: `break` at the first period whose interval overlaps, otherwise
append the period. -/
def availPeriodsLoop (c : Court) (start_dt : DT) : List Int → List Int
  | [] => []
  | period :: rest =>
    if period_overlaps c start_dt (start_dt + period) then []
    else period :: availPeriodsLoop c start_dt rest

/-- Embeds `TennisCourt.available_periods`: candidate periods `[30, 60, 90]`
minutes (the trailing `print` calls only display the result). -/
def available_periods (c : Court) (start_dt : DT) : List Int :=
  availPeriodsLoop c start_dt [30, 60, 90]

/-- Embeds `TennisCourt.make_reservation`: inserts a new `Reservation` before the
first existing one with `rsvn.start_date > start_dt`, else appends. -/
def make_reservation (c : Court) (name : String) (start_dt end_dt : DT) : Court :=
  match c with
  | [] => [⟨name, start_dt, end_dt⟩]
  | rsvn :: rest =>
    if rsvn.start_date > start_dt then ⟨name, start_dt, end_dt⟩ :: rsvn :: rest
    else rsvn :: make_reservation rest name start_dt end_dt

/-- Embeds `TennisCourt.cancel_reservation`: removes the first reservation
matching the name and the exact start instant; returns whether one was
removed, paired with the resulting ledger (`self.reservations` after the
call). -/
def cancel_reservation (c : Court) (name : String) (start_dt : DT) : Bool × Court :=
  match c with
  | [] => (false, [])
  | rsvn :: rest =>
    if name = rsvn.name ∧ start_dt = rsvn.start_date then (true, rest)
    else
      let r := cancel_reservation rest name start_dt
      (r.1, rsvn :: r.2)

/-- Embeds `one_hour_from_now_or_less` of `tennis.py`:
`start_dt - timedelta(hours=1) <= datetime.now()` (the current instant is
passed explicitly here). -/
def one_hour_from_now_or_less (now start_dt : DT) : Bool :=
  start_dt - 60 ≤ now

/-! ## The booking workflow (`__main__` case '1' of `tennis.py`) -/

/-- Outcome of the check sequence that a new booking request passes
through before any slot negotiation happens. -/
inductive BookingOutcome where
  | invalidName
  | invalidDate
  | quotaReached
  | leadTimeViolated
  | proceed
deriving DecidableEq, Repr

/-- The check sequence of `__main__` case '1': `name_validation`, then
`datetime_validation` (their parsed results are passed in, `none` meaning
the validation failed and the workflow aborts), then
`two_reservations_per_week`, then `one_hour_from_now_or_less`; the
workflow `break`s at the first check that fires. -/
def bookingChecks (c : Court) (now : DT) (usr_name : Option String)
    (usr_date : Option DT) : BookingOutcome :=
  match usr_name with
  | none => .invalidName
  | some name =>
    match usr_date with
    | none => .invalidDate
    | some start_dt =>
      if two_reservations_per_week c name start_dt then .quotaReached
      else if one_hour_from_now_or_less now start_dt then .leadTimeViolated
      else .proceed

/-! ## Export formats (`TennisCourt.save_schedule`) -/

/-- The content of a `"%d.%m.%Y %H:%M"` timestamp rendering: the numeric
fields the fixed-width string encodes. -/
structure DTFields where
  day : Nat
  month : Nat
  year : Nat
  hour : Nat
  minute : Nat
deriving DecidableEq, Repr

/-- Python `dt.strftime("%d.%m.%Y %H:%M")`, at the level of the numeric
fields the string encodes. -/
def strftimeFields (m : DT) : DTFields :=
  let ymd := ord2ymd (ordOf m)
  ⟨ymd.2.2, ymd.2.1, ymd.1, m.toNat % 1440 / 60, m.toNat % 60⟩

/-- Python `datetime.strptime(s, "%d.%m.%Y %H:%M")` — the re-parser the
repository itself uses for this format (`validators.datetime_validation`)
— at the level of the numeric fields: `none` exactly when the fields are
not a valid Gregorian date and time of day. -/
def strptimeFields (f : DTFields) : Option DT :=
  if 1 ≤ f.year ∧ f.year ≤ 9999 ∧ 1 ≤ f.month ∧ f.month ≤ 12 ∧
      1 ≤ f.day ∧ f.day ≤ daysInMonth f.year f.month ∧ f.hour ≤ 23 ∧ f.minute ≤ 59 then
    some (dtm f.year f.month f.day f.hour f.minute)
  else none

/-- The date-range filter of `save_schedule`:
`start_date <= rsvn.start_date.date() <= end_date` (dates as ordinals). -/
def filtered_reservations (c : Court) (start_date end_date : Nat) : Court :=
  c.filter fun rsvn =>
    decide (start_date ≤ ordOf rsvn.start_date) && decide (ordOf rsvn.start_date ≤ end_date)

/-- One `writer.writerow` record of the csv branch of `save_schedule`. -/
structure CsvRow where
  name : String
  start_date : DTFields
  end_date : DTFields
deriving DecidableEq, Repr

/-- The csv branch of `save_schedule`: one row per filtered reservation,
both timestamps rendered with `strftime("%d.%m.%Y %H:%M")`. -/
def save_schedule_csv (c : Court) (start_date end_date : Nat) : List CsvRow :=
  (filtered_reservations c start_date end_date).map fun rsvn =>
    ⟨rsvn.name, strftimeFields rsvn.start_date, strftimeFields rsvn.end_date⟩

/-- Re-parse a csv row with the `"%d.%m.%Y %H:%M"` parser on both
timestamps. -/
def parseCsvRow (row : CsvRow) : String × Option DT × Option DT :=
  (row.name, strptimeFields row.start_date, strptimeFields row.end_date)

/-- The day key `rsvn.start_date.strftime("%d.%m.%Y")` of the json branch. -/
structure DayKey where
  day : Nat
  month : Nat
  year : Nat
deriving DecidableEq, Repr

/-- The numeric fields of the `"%d.%m.%Y"` day key of an instant. -/
def dayKeyOf (m : DT) : DayKey :=
  let ymd := ord2ymd (ordOf m)
  ⟨ymd.2.2, ymd.2.1, ymd.1⟩

/-- One appointment of the json branch: name plus the `"%H:%M"` renderings
of the start and end instants. -/
structure JsonEntry where
  name : String
  start_time : Nat × Nat
  end_time : Nat × Nat
deriving DecidableEq, Repr

/-- The (hour, minute) fields of the `"%H:%M"` rendering of an instant. -/
def hmOf (m : DT) : Nat × Nat := (m.toNat % 1440 / 60, m.toNat % 60)

/-- Embeds `schedule_by_date[day_date] = [appointment]` /
`schedule_by_date[day_date].append(appointment)` on a dict in insertion
order, modelled as an association list. -/
def addEntry (sched : List (DayKey × List JsonEntry)) (k : DayKey) (e : JsonEntry) :
    List (DayKey × List JsonEntry) :=
  match sched with
  | [] => [(k, [e])]
  | (k0, es) :: rest =>
    if k0 = k then (k0, es ++ [e]) :: rest
    else (k0, es) :: addEntry rest k e

/-- The json branch of `save_schedule`: fold the filtered reservations
into the per-day mapping. -/
def save_schedule_json (c : Court) (start_date end_date : Nat) :
    List (DayKey × List JsonEntry) :=
  (filtered_reservations c start_date end_date).foldl
    (fun sched rsvn =>
      addEntry sched (dayKeyOf rsvn.start_date)
        ⟨rsvn.name, hmOf rsvn.start_date, hmOf rsvn.end_date⟩)
    []

/-- Re-parse a grouped entry time: the instant encoded by the day key
together with one `"%H:%M"` time of the entry. -/
def parseJsonTime (k : DayKey) (t : Nat × Nat) : Option DT :=
  strptimeFields ⟨k.day, k.month, k.year, t.1, t.2⟩

/-- The appointment `e` is recorded under day key `k` somewhere in the
grouped schedule. -/
def EntryIn (sched : List (DayKey × List JsonEntry)) (k : DayKey) (e : JsonEntry) : Prop :=
  ∃ es, (k, es) ∈ sched ∧ e ∈ es

/-- The instant lies in the range Python datetimes can represent
(years 1–9999). -/
abbrev InRangeDT (m : DT) : Prop := 0 ≤ m ∧ m < 3652059 * 1440

/-- Both instants of the reservation are representable. -/
abbrev InRangeRsvn (r : Reservation) : Prop := InRangeDT r.start_date ∧ InRangeDT r.end_date

/-! ## Auxiliary notions for the claims -/

/-- The ledger is sorted ascending by `start_date`. -/
abbrev SortedByStart (c : Court) : Prop :=
  List.Pairwise (fun a b => a.start_date ≤ b.start_date) c

/-- Modelled from the spec (§4.1 `nextAvailable` — the algorithm as the
spec words it, to be compared with `next_available_datetime`): "maintain a
candidate `closest = desiredStart`; for each reservation in order, if
`reservation.start >= closest + 30 minutes`, return `closest` immediately;
otherwise, if `closest <= reservation.end`, advance
`closest = reservation.end`. After exhausting all reservations, return
`closest`." -/
def nextAvailableSpecLoop : Court → DT → DT
  | [], closest => closest
  | rsvn :: rest, closest =>
    if rsvn.start_date ≥ closest + 30 then closest
    else if closest ≤ rsvn.end_date then nextAvailableSpecLoop rest rsvn.end_date
    else nextAvailableSpecLoop rest closest

/-- Modelled from the spec: `nextAvailable(desiredStart)`. -/
def nextAvailableSpec (c : Court) (desiredStart : DT) : DT :=
  nextAvailableSpecLoop c desiredStart

/-- The ledger of the spec's `nextAvailable` example:
[2023-05-28 12:00–13:00], [2023-05-28 13:00–2023-05-29 13:00],
[2023-05-29 13:30–15:00]. -/
def exampleCourt : Court :=
  [⟨"John", dtm 2023 5 28 12 0, dtm 2023 5 28 13 0⟩,
   ⟨"Jenny", dtm 2023 5 28 13 0, dtm 2023 5 29 13 0⟩,
   ⟨"Jack", dtm 2023 5 29 13 30, dtm 2023 5 29 15 0⟩]

/-- A ledger with two reservations for John in ISO week 21 of two
different years (2023 and 2024). -/
def johnLedger : Court :=
  [⟨"John", dtm 2023 5 22 10 0, dtm 2023 5 22 11 0⟩,
   ⟨"John", dtm 2024 5 20 10 0, dtm 2024 5 20 11 0⟩]

/-- A ledger with two reservations for John inside ISO week 21 of 2023. -/
def johnWeekLedger : Court :=
  [⟨"John", dtm 2023 5 22 10 0, dtm 2023 5 22 11 0⟩,
   ⟨"John", dtm 2023 5 23 10 0, dtm 2023 5 23 11 0⟩]

/-! ## Correctness of `ord2ymd` (inverse of `ymd2ord` on the valid range) -/

/-- What the month/day lookup of `_ord2ymd` must establish about a 0-based
day of a year. -/
abbrev monthDayOK (leap : Bool) (n : Nat) : Prop :=
  let md := monthDayOfYearDay leap n
  1 ≤ md.1 ∧ md.1 ≤ 12 ∧ 1 ≤ md.2 ∧
    md.2 ≤ daysInMonthTbl md.1 + (if md.1 = 2 ∧ leap then 1 else 0) ∧
    daysBeforeMonthTbl md.1 + (if 2 < md.1 ∧ leap then 1 else 0) + md.2 = n + 1

set_option maxRecDepth 4000 in
lemma monthDay_spec : ∀ n : Nat, n < 365 → monthDayOK false n ∧ monthDayOK true n := by
  decide

lemma isLeap_iff (y : Nat) :
    isLeap y = true ↔ (y % 4 = 0 ∧ (y % 100 ≠ 0 ∨ y % 400 = 0)) := by
  simp [isLeap]

lemma daysBeforeYear_structured (a b c d : Nat) (hb : b ≤ 3) (hc : c ≤ 24) (hd : d ≤ 3) :
    daysBeforeYear (400 * a + 100 * b + 4 * c + d + 1)
      = 146097 * a + 36524 * b + 1461 * c + 365 * d := by
  simp only [daysBeforeYear]
  omega

/-- The month/day lookup is correct with respect to the year's actual leap
flag. -/
lemma monthDay_correct (Y n : Nat) (hn : n < 365) :
    1 ≤ (monthDayOfYearDay (isLeap Y) n).1 ∧ (monthDayOfYearDay (isLeap Y) n).1 ≤ 12 ∧
    1 ≤ (monthDayOfYearDay (isLeap Y) n).2 ∧
    (monthDayOfYearDay (isLeap Y) n).2 ≤ daysInMonth Y (monthDayOfYearDay (isLeap Y) n).1 ∧
    daysBeforeMonth Y (monthDayOfYearDay (isLeap Y) n).1
      + (monthDayOfYearDay (isLeap Y) n).2 = n + 1 := by
  cases hLY : isLeap Y with
  | false =>
    simp only [daysInMonth, daysBeforeMonth, hLY]
    simpa [monthDayOK] using (monthDay_spec n hn).1
  | true =>
    simp only [daysInMonth, daysBeforeMonth, hLY]
    simpa [monthDayOK] using (monthDay_spec n hn).2

/-- Lemma: `_ord2ymd` returns a valid calendar date, and `_ymd2ord` maps it back
to the ordinal, for every ordinal in the range of years 1–9999. -/
lemma ord2ymd_spec (n y m d : Nat) (hn : 1 ≤ n) (hmax : n ≤ 3652059)
    (heq : ord2ymd n = (y, m, d)) :
    1 ≤ y ∧ y ≤ 9999 ∧ 1 ≤ m ∧ m ≤ 12 ∧ 1 ≤ d ∧ d ≤ daysInMonth y m ∧
      ymd2ord y m d = n := by
  simp only [ord2ymd] at heq
  set n0 := n - 1 with hn0
  set q1 := n0 / 146097 with hq1
  set r1 := n0 % 146097 with hr1
  set q2 := r1 / 36524 with hq2
  set r2 := r1 % 36524 with hr2
  set q3 := r2 / 1461 with hq3
  set r3 := r2 % 1461 with hr3
  set q4 := r3 / 365 with hq4
  set r4 := r3 % 365 with hr4
  have h334 : daysBeforeMonthTbl 12 = 334 := rfl
  have h31 : daysInMonthTbl 12 = 31 := rfl
  split at heq
  case isTrue hedge =>
    rw [Prod.mk.injEq, Prod.mk.injEq] at heq
    obtain ⟨hy, hm, hd⟩ := heq
    subst hy hm hd
    rcases hedge with h4 | h2
    · -- q4 = 4: December 31 of the leap year closing a 4-year block
      have hsh : q1 * 400 + 1 + q2 * 100 + q3 * 4 + q4 - 1
          = 400 * q1 + 100 * q2 + 4 * q3 + 3 + 1 := by omega
      have hLY : isLeap (q1 * 400 + 1 + q2 * 100 + q3 * 4 + q4 - 1) = true := by
        rw [isLeap_iff]
        omega
      refine ⟨by omega, by omega, by norm_num, by norm_num, by norm_num, ?_, ?_⟩
      · simp only [daysInMonth, h31]
        split_ifs <;> omega
      · simp only [ymd2ord, daysBeforeMonth, h334, hLY]
        rw [hsh, daysBeforeYear_structured q1 q2 q3 3 (by omega) (by omega) (by omega)]
        split_ifs with hcond
        · omega
        · simp at hcond
    · -- q2 = 4: December 31 of the year closing a 400-year cycle
      have hsh : q1 * 400 + 1 + q2 * 100 + q3 * 4 + q4 - 1
          = 400 * q1 + 100 * 3 + 4 * 24 + 3 + 1 := by omega
      have hLY : isLeap (q1 * 400 + 1 + q2 * 100 + q3 * 4 + q4 - 1) = true := by
        rw [isLeap_iff]
        omega
      refine ⟨by omega, by omega, by norm_num, by norm_num, by norm_num, ?_, ?_⟩
      · simp only [daysInMonth, h31]
        split_ifs <;> omega
      · simp only [ymd2ord, daysBeforeMonth, h334, hLY]
        rw [hsh, daysBeforeYear_structured q1 3 24 3 (by omega) (by omega) (by omega)]
        split_ifs with hcond
        · omega
        · simp at hcond
  case isFalse hedge =>
    have hq2b : q2 ≤ 3 := by omega
    have hq3b : q3 ≤ 24 := by omega
    have hq4b : q4 ≤ 3 := by omega
    have hdby : daysBeforeYear (q1 * 400 + 1 + q2 * 100 + q3 * 4 + q4)
        = 146097 * q1 + 36524 * q2 + 1461 * q3 + 365 * q4 := by
      rw [show q1 * 400 + 1 + q2 * 100 + q3 * 4 + q4
          = 400 * q1 + 100 * q2 + 4 * q3 + q4 + 1 by ring]
      exact daysBeforeYear_structured q1 q2 q3 q4 hq2b hq3b hq4b
    have hBL : (q4 == 3 && (q3 != 24 || q2 == 3))
        = isLeap (q1 * 400 + 1 + q2 * 100 + q3 * 4 + q4) := by
      rcases Bool.eq_false_or_eq_true (q4 == 3 && (q3 != 24 || q2 == 3)) with hb | hb <;>
        rw [hb] <;> symm
      · rw [isLeap_iff]
        simp only [Bool.and_eq_true, beq_iff_eq, Bool.or_eq_true, bne_iff_ne] at hb
        omega
      · rw [Bool.eq_false_iff, Ne, isLeap_iff]
        rw [Bool.eq_false_iff] at hb
        simp only [Ne, Bool.and_eq_true, beq_iff_eq, Bool.or_eq_true, bne_iff_ne] at hb
        omega
    rw [hBL] at heq
    rw [Prod.mk.injEq, Prod.mk.injEq] at heq
    obtain ⟨hy, hm, hd⟩ := heq
    subst hy hm hd
    obtain ⟨hm1, hm2, hm3, hm4, hm5⟩ :=
      monthDay_correct (q1 * 400 + 1 + q2 * 100 + q3 * 4 + q4) r4 (by omega)
    refine ⟨by omega, by omega, hm1, hm2, hm3, hm4, ?_⟩
    simp only [ymd2ord, hdby]
    omega

/-! ## Round trip of the `"%d.%m.%Y %H:%M"` rendering -/

lemma strptime_strftime_nat (k : Nat) (hmax : k < 3652059 * 1440) :
    strptimeFields (strftimeFields (k : Int)) = some (k : Int) := by
  have htn : ((k : Int)).toNat = k := Int.toNat_natCast k
  rcases hodd : ord2ymd (k / 1440 + 1) with ⟨y, mo, dd⟩
  obtain ⟨hy1, hy2, hmo1, hmo2, hdd1, hdd2, hord⟩ :=
    ord2ymd_spec (k / 1440 + 1) y mo dd (by omega) (by omega) hodd
  have hsf : strftimeFields (k : Int) = ⟨dd, mo, y, k % 1440 / 60, k % 60⟩ := by
    simp [strftimeFields, ordOf, htn, hodd]
  rw [hsf]
  have hcond : 1 ≤ y ∧ y ≤ 9999 ∧ 1 ≤ mo ∧ mo ≤ 12 ∧ 1 ≤ dd ∧ dd ≤ daysInMonth y mo ∧
      k % 1440 / 60 ≤ 23 ∧ k % 60 ≤ 59 :=
    ⟨hy1, hy2, hmo1, hmo2, hdd1, hdd2, by omega, by omega⟩
  simp only [strptimeFields, if_pos hcond, dtm, hord, Option.some.injEq]
  have : (k / 1440 + 1 - 1) * 1440 + k % 1440 / 60 * 60 + k % 60 = k := by omega
  rw [this]

lemma strptime_strftime (m : DT) (hm : InRangeDT m) :
    strptimeFields (strftimeFields m) = some m := by
  obtain ⟨h0, hmax⟩ := hm
  lift m to Nat using h0 with k
  exact strptime_strftime_nat k (by exact_mod_cast hmax)

/-- Lemma: `parseJsonTime` of the day key and `"%H:%M"` fields of the same
instant is the same computation as re-parsing the full rendering. -/
lemma parseJsonTime_eq (m : DT) :
    parseJsonTime (dayKeyOf m) (hmOf m) = strptimeFields (strftimeFields m) := rfl

/-! ## Membership in the grouped (json) schedule -/

lemma EntryIn_addEntry_self (sched : List (DayKey × List JsonEntry)) (k : DayKey)
    (e : JsonEntry) : EntryIn (addEntry sched k e) k e := by
  induction sched with
  | nil => exact ⟨[e], List.mem_singleton_self _, List.mem_singleton_self _⟩
  | cons p rest ih =>
    obtain ⟨k0, es⟩ := p
    simp only [addEntry]
    split_ifs with hk
    · subst hk
      exact ⟨es ++ [e], List.mem_cons_self _ _, List.mem_append_right _ (List.mem_singleton_self _)⟩
    · obtain ⟨es0, hmem, he⟩ := ih
      exact ⟨es0, List.mem_cons_of_mem _ hmem, he⟩

lemma EntryIn_addEntry_mono (sched : List (DayKey × List JsonEntry)) (k : DayKey)
    (e : JsonEntry) (k0 : DayKey) (e0 : JsonEntry) (h : EntryIn sched k0 e0) :
    EntryIn (addEntry sched k e) k0 e0 := by
  induction sched with
  | nil => exact absurd h.choose_spec.1 (List.not_mem_nil _)
  | cons p rest ih =>
    obtain ⟨k1, es⟩ := p
    obtain ⟨es0, hmem, he⟩ := h
    simp only [addEntry]
    split_ifs with hk
    · rcases List.mem_cons.mp hmem with hhead | htail
      · rw [Prod.mk.injEq] at hhead
        obtain ⟨hk1, hes⟩ := hhead
        subst hk1 hes
        exact ⟨es0 ++ [e], List.mem_cons_self _ _, List.mem_append_left _ he⟩
      · exact ⟨es0, List.mem_cons_of_mem _ htail, he⟩
    · rcases List.mem_cons.mp hmem with hhead | htail
      · rw [Prod.mk.injEq] at hhead
        obtain ⟨hk1, hes⟩ := hhead
        subst hk1 hes
        exact ⟨es0, List.mem_cons_self _ _, he⟩
      · obtain ⟨es1, hmem1, he1⟩ := ih ⟨es0, htail, he⟩
        exact ⟨es1, List.mem_cons_of_mem _ hmem1, he1⟩

lemma EntryIn_foldl_mono (l : Court) (acc : List (DayKey × List JsonEntry))
    (k : DayKey) (e : JsonEntry) (h : EntryIn acc k e) :
    EntryIn (l.foldl (fun sched rsvn => addEntry sched (dayKeyOf rsvn.start_date)
      ⟨rsvn.name, hmOf rsvn.start_date, hmOf rsvn.end_date⟩) acc) k e := by
  induction l generalizing acc with
  | nil => exact h
  | cons r rest ih => exact ih _ (EntryIn_addEntry_mono _ _ _ _ _ h)

lemma EntryIn_foldl_self (l : Court) (acc : List (DayKey × List JsonEntry))
    (r : Reservation) (hr : r ∈ l) :
    EntryIn (l.foldl (fun sched rsvn => addEntry sched (dayKeyOf rsvn.start_date)
        ⟨rsvn.name, hmOf rsvn.start_date, hmOf rsvn.end_date⟩) acc)
      (dayKeyOf r.start_date) ⟨r.name, hmOf r.start_date, hmOf r.end_date⟩ := by
  induction l generalizing acc with
  | nil => cases hr
  | cons r0 rest ih =>
    rcases List.mem_cons.mp hr with hhead | htail
    · subst hhead
      exact EntryIn_foldl_mono rest _ _ _ (EntryIn_addEntry_self _ _ _)
    · exact ih _ htail

/-! ## Helper lemmas for the ledger operations -/

lemma period_overlaps_iff (c : Court) (s e : DT) :
    period_overlaps c s e = true ↔ ∃ r ∈ c, s < r.end_date ∧ e > r.start_date := by
  induction c with
  | nil => simp [period_overlaps]
  | cons r rest ih =>
    simp only [period_overlaps, List.mem_cons]
    split_ifs with h
    · exact iff_of_true rfl ⟨r, Or.inl rfl, h⟩
    · rw [ih]
      constructor
      · rintro ⟨x, hx, hxx⟩
        exact ⟨x, Or.inr hx, hxx⟩
      · rintro ⟨x, hor, hxx⟩
        rcases hor with rfl | hx
        · exact absurd hxx h
        · exact ⟨x, hx, hxx⟩

lemma date_not_available_iff (c : Court) (t : DT) :
    date_not_available c t = true ↔ ∃ r ∈ c, r.start_date ≤ t ∧ t < r.end_date := by
  induction c with
  | nil => simp [date_not_available]
  | cons r rest ih =>
    simp only [date_not_available, List.mem_cons]
    split_ifs with h
    · exact iff_of_true rfl ⟨r, Or.inl rfl, h⟩
    · rw [ih]
      constructor
      · rintro ⟨x, hx, hxx⟩
        exact ⟨x, Or.inr hx, hxx⟩
      · rintro ⟨x, hor, hxx⟩
        rcases hor with rfl | hx
        · exact absurd hxx h
        · exact ⟨x, hx, hxx⟩

lemma availPeriodsLoop_eq_takeWhile (c : Court) (s : DT) (ps : List Int) :
    availPeriodsLoop c s ps = ps.takeWhile fun p => !period_overlaps c s (s + p) := by
  induction ps with
  | nil => rfl
  | cons p rest ih =>
    simp only [availPeriodsLoop, List.takeWhile_cons]
    cases h : period_overlaps c s (s + p) <;> simp [h, ih]

lemma nextAvailLoop_eq_spec (c : Court) (d : DT) :
    nextAvailLoop c d = nextAvailableSpecLoop c d := by
  induction c generalizing d with
  | nil => rfl
  | cons r rest ih =>
    simp only [nextAvailLoop, nextAvailableSpecLoop, ih]

lemma mem_make_reservation (c : Court) (name : String) (s e : DT) (x : Reservation)
    (hx : x ∈ make_reservation c name s e) : x ∈ c ∨ x = ⟨name, s, e⟩ := by
  induction c with
  | nil => simpa [make_reservation] using hx
  | cons r rest ih =>
    simp only [make_reservation] at hx
    split_ifs at hx with h
    · rcases List.mem_cons.mp hx with rfl | hx2
      · exact Or.inr rfl
      · exact Or.inl hx2
    · rcases List.mem_cons.mp hx with rfl | hx2
      · exact Or.inl (List.mem_cons_self _ _)
      · rcases ih hx2 with h1 | h2
        · exact Or.inl (List.mem_cons_of_mem _ h1)
        · exact Or.inr h2

lemma make_reservation_sorted (c : Court) (name : String) (s e : DT)
    (hc : SortedByStart c) : SortedByStart (make_reservation c name s e) := by
  induction c with
  | nil => simp [make_reservation, SortedByStart]
  | cons r rest ih =>
    obtain ⟨hr, hrest⟩ := List.pairwise_cons.mp hc
    simp only [make_reservation]
    split_ifs with h
    · refine List.Pairwise.cons ?_ hc
      intro x hx
      rcases List.mem_cons.mp hx with rfl | hx2
      · exact le_of_lt h
      · exact le_trans (le_of_lt h) (hr x hx2)
    · refine List.Pairwise.cons ?_ (ih hrest)
      intro x hx
      rcases mem_make_reservation rest name s e x hx with h1 | h2
      · exact hr x h1
      · subst h2
        exact not_lt.mp h

lemma make_reservation_placement (c : Court) (name : String) (s e : DT) :
    make_reservation c name s e
      = c.takeWhile (fun r => !decide (r.start_date > s))
          ++ ⟨name, s, e⟩ :: c.dropWhile (fun r => !decide (r.start_date > s)) := by
  induction c with
  | nil => rfl
  | cons r rest ih =>
    by_cases h : s < r.start_date
    · simp [make_reservation, List.takeWhile_cons, List.dropWhile_cons, h]
    · simp [make_reservation, List.takeWhile_cons, List.dropWhile_cons, h, ih]

lemma foldl_make_reservation_sorted (reqs : List (String × DT × DT)) (c : Court)
    (hc : SortedByStart c) :
    SortedByStart (reqs.foldl (fun acc q => make_reservation acc q.1 q.2.1 q.2.2) c) := by
  induction reqs generalizing c with
  | nil => exact hc
  | cons q rest ih => exact ih _ (make_reservation_sorted _ _ _ _ hc)

/-! ## The claims -/

/-- C1: for every ledger and pair of instants, `period_overlaps` returns
true iff some existing reservation satisfies `start < existing.end` and
`end > existing.start`; in particular intervals that merely touch at an
endpoint never count (given an existing [10:00, 11:00) reservation, the
queries for [11:00, 12:00) and [09:00, 10:00) are both false). The
operation computes a boolean from `self.reservations` and performs no
mutation — in this embedding it is a pure function of the ledger, exactly
as the source only reads the list. -/
theorem C1_overlaps_iff_touching_excluded :
    (∀ (c : Court) (s e : DT),
        period_overlaps c s e = true ↔ ∃ r ∈ c, s < r.end_date ∧ e > r.start_date) ∧
    period_overlaps [⟨"A", dtm 2023 5 28 10 0, dtm 2023 5 28 11 0⟩]
        (dtm 2023 5 28 11 0) (dtm 2023 5 28 12 0) = false ∧
    period_overlaps [⟨"A", dtm 2023 5 28 10 0, dtm 2023 5 28 11 0⟩]
        (dtm 2023 5 28 9 0) (dtm 2023 5 28 10 0) = false :=
  ⟨period_overlaps_iff, by decide, by decide⟩

/-- C8: for every ledger and instant `t`, `date_not_available` (the
`isOccupied` query) returns true iff some reservation satisfies
`start <= t < end`: the start instant of a [10:00, 11:00) reservation is
occupied and its end instant is not. -/
theorem C8_occupied_iff_left_closed_right_open :
    (∀ (c : Court) (t : DT),
        date_not_available c t = true ↔ ∃ r ∈ c, r.start_date ≤ t ∧ t < r.end_date) ∧
    date_not_available [⟨"A", dtm 2023 5 28 10 0, dtm 2023 5 28 11 0⟩]
        (dtm 2023 5 28 10 0) = true ∧
    date_not_available [⟨"A", dtm 2023 5 28 10 0, dtm 2023 5 28 11 0⟩]
        (dtm 2023 5 28 11 0) = false :=
  ⟨date_not_available_iff, by decide, by decide⟩

/-- C3: `next_available_datetime` computes exactly the algorithm stated in
the spec (candidate `closest`, early return on a 30-minute-or-larger gap,
otherwise advance to the reservation's end when `closest <= end`), and on
the spec's example ledger `nextAvailable(2023-05-28 12:00)` is
2023-05-29 13:00. -/
theorem C3_next_available_algorithm :
    (∀ (c : Court) (d : DT), next_available_datetime c d = nextAvailableSpec c d) ∧
    next_available_datetime exampleCourt (dtm 2023 5 28 12 0) = dtm 2023 5 29 13 0 :=
  ⟨fun c d => nextAvailLoop_eq_spec c d, by decide⟩

/-- C4: `available_periods` returns exactly the longest prefix of
[30, 60, 90] whose members all pass the overlap test (durations tested in
increasing order, scan stopped at the first overlapping duration) — stated
via `List.takeWhile`; concretely, a blocked 30-minute slot yields the
empty list even though the ledger is free later, a 45-minute gap yields
[30], and an uninterrupted gap of at least 90 minutes yields
[30, 60, 90]. -/
theorem C4_available_periods_longest_admissible_start :
    (∀ (c : Court) (s : DT),
        available_periods c s
          = ([30, 60, 90] : List Int).takeWhile fun p => !period_overlaps c s (s + p)) ∧
    available_periods [⟨"A", dtm 2023 5 28 12 10, dtm 2023 5 28 12 20⟩]
        (dtm 2023 5 28 12 0) = [] ∧
    available_periods [⟨"A", dtm 2023 5 28 12 45, dtm 2023 5 28 13 30⟩]
        (dtm 2023 5 28 12 0) = [30] ∧
    available_periods [⟨"A", dtm 2023 5 28 13 30, dtm 2023 5 28 14 0⟩]
        (dtm 2023 5 28 12 0) = [30, 60, 90] :=
  ⟨fun c s => availPeriodsLoop_eq_takeWhile c s _, by decide, by decide, by decide⟩

/-- C5: `make_reservation` places the new reservation immediately before
the first existing reservation whose start is strictly greater than the
new start (appending when there is none); it maps ledgers sorted ascending
by start to ledgers sorted ascending by start, and any sequence of
insertions starting from the empty ledger yields a sorted ledger. -/
theorem C5_insertion_preserves_sorted_order :
    (∀ (c : Court) (name : String) (s e : DT),
        make_reservation c name s e
          = c.takeWhile (fun r => !decide (r.start_date > s))
              ++ ⟨name, s, e⟩ :: c.dropWhile (fun r => !decide (r.start_date > s))) ∧
    (∀ (c : Court) (name : String) (s e : DT),
        SortedByStart c → SortedByStart (make_reservation c name s e)) ∧
    (∀ reqs : List (String × DT × DT),
        SortedByStart (reqs.foldl (fun acc q => make_reservation acc q.1 q.2.1 q.2.2) [])) :=
  ⟨make_reservation_placement,
   make_reservation_sorted,
   fun reqs => foldl_make_reservation_sorted reqs [] List.Pairwise.nil⟩

/-- Witness for C5 at a concrete sorted ledger. -/
theorem C5_insertion_preserves_sorted_order_witness :
    SortedByStart [⟨"A", (10 : Int), 20⟩, ⟨"B", 40, 50⟩] ∧
    SortedByStart (make_reservation [⟨"A", (10 : Int), 20⟩, ⟨"B", 40, 50⟩] "C" 25 35) :=
  ⟨by decide,
   C5_insertion_preserves_sorted_order.2.1 [⟨"A", 10, 20⟩, ⟨"B", 40, 50⟩] "C" 25 35 (by decide)⟩

/-- C9: when no reservation matches both the name (exact, case-sensitive
string equality) and the exact start instant, `cancel_reservation` returns
false and the ledger is completely unchanged; removing an
already-removed pair is an instance of this. -/
theorem C9_remove_missing_noop :
    ∀ (c : Court) (name : String) (s : DT),
      (∀ r ∈ c, ¬(r.name = name ∧ r.start_date = s)) →
      cancel_reservation c name s = (false, c) := by
  intro c name s h
  induction c with
  | nil => rfl
  | cons r rest ih =>
    simp only [cancel_reservation]
    split_ifs with hc
    · exact absurd ⟨hc.1.symm, hc.2.symm⟩ (h r (List.mem_cons_self _ _))
    · have hrec := ih fun x hx => h x (List.mem_cons_of_mem _ hx)
      simp [hrec]

/-- Witness for C9: cancelling with a name that matches no reservation. -/
theorem C9_remove_missing_noop_witness :
    (∀ r ∈ ([⟨"John", (0 : Int), 10⟩] : Court), ¬(r.name = "Mike" ∧ r.start_date = 0)) ∧
    cancel_reservation [⟨"John", (0 : Int), 10⟩] "Mike" 0 = (false, [⟨"John", 0, 10⟩]) :=
  ⟨by decide, C9_remove_missing_noop [⟨"John", 0, 10⟩] "Mike" 0 (by decide)⟩

/-- C10: when `cancel_reservation` reports success, the ledger loses
exactly its first reservation matching both name and start: the result is
the original sequence with that one element deleted, every other
reservation kept unchanged in its original relative order, and the length
drops by exactly one. -/
theorem C10_remove_first_match_only :
    ∀ (c : Court) (name : String) (s : DT) (rem : Court),
      cancel_reservation c name s = (true, rem) →
      ∃ pre r post, c = pre ++ r :: post ∧ rem = pre ++ post ∧
        r.name = name ∧ r.start_date = s ∧
        (∀ x ∈ pre, ¬(x.name = name ∧ x.start_date = s)) ∧
        c.length = rem.length + 1 := by
  intro c name s rem h
  induction c generalizing rem with
  | nil => simp [cancel_reservation] at h
  | cons r rest ih =>
    simp only [cancel_reservation] at h
    split_ifs at h with hc
    · rw [Prod.mk.injEq] at h
      obtain ⟨-, hrem⟩ := h
      subst hrem
      exact ⟨[], r, rest, rfl, rfl, hc.1.symm, hc.2.symm, by simp, by simp⟩
    · rw [Prod.mk.injEq] at h
      obtain ⟨hb, hrem⟩ := h
      have hh : cancel_reservation rest name s = (true, (cancel_reservation rest name s).2) := by
        rw [← hb]
      obtain ⟨pre, r0, post, hceq, hrem2, hn, hs, hpre, hlen⟩ := ih _ hh
      refine ⟨r :: pre, r0, post, by rw [hceq]; rfl, ?_, hn, hs, ?_, ?_⟩
      · rw [← hrem, hrem2]
        rfl
      · intro x hx
        rcases List.mem_cons.mp hx with rfl | hx2
        · exact fun hcontra => hc ⟨hcontra.1.symm, hcontra.2.symm⟩
        · exact hpre x hx2
      · rw [← hrem]
        simp only [List.length_cons, hlen]

/-- Witness for C10: cancelling the first of two reservations. -/
theorem C10_remove_first_match_only_witness :
    cancel_reservation [⟨"John", (0 : Int), 10⟩, ⟨"Jane", 20, 30⟩] "John" 0
      = (true, [⟨"Jane", 20, 30⟩]) ∧
    (∃ pre r post,
      ([⟨"John", (0 : Int), 10⟩, ⟨"Jane", 20, 30⟩] : Court) = pre ++ r :: post ∧
      ([⟨"Jane", (20 : Int), 30⟩] : Court) = pre ++ post ∧
      r.name = "John" ∧ r.start_date = 0 ∧
      (∀ x ∈ pre, ¬(x.name = "John" ∧ x.start_date = 0)) ∧
      ([⟨"John", (0 : Int), 10⟩, ⟨"Jane", 20, 30⟩] : Court).length
        = ([⟨"Jane", (20 : Int), 30⟩] : Court).length + 1) :=
  ⟨by decide,
   C10_remove_first_match_only [⟨"John", 0, 10⟩, ⟨"Jane", 20, 30⟩] "John" 0
     [⟨"Jane", 20, 30⟩] (by decide)⟩

/-- C2 (the code evaluated at the failing input): John's ledger holds
reservations only in ISO calendar weeks (2023, 21) and (2024, 21); a
candidate start in ISO calendar week (2025, 21) lies in a different ISO
calendar week from every existing reservation — the count of same-ISO-week
reservations is zero — yet `two_reservations_per_week` reports the weekly
quota as reached, because the source compares only
`isocalendar(...).week`, the bare week number, with no year component. -/
theorem C2_quota_compares_bare_week_numbers :
    two_reservations_per_week johnLedger "John" (dtm 2025 5 19 10 0) = true ∧
    isoYearWeekOf (dtm 2023 5 22 10 0) = (2023, 21) ∧
    isoYearWeekOf (dtm 2024 5 20 10 0) = (2024, 21) ∧
    isoYearWeekOf (dtm 2025 5 19 10 0) = (2025, 21) ∧
    (johnLedger.filter fun r =>
        r.name == "John"
          && decide (isoYearWeekOf r.start_date = isoYearWeekOf (dtm 2025 5 19 10 0))) = [] :=
  ⟨by decide, by decide, by decide, by decide, by decide⟩

/-- C6 counterexample: a request that violates both the weekly quota and
the one-hour lead-time rule is rejected by the quota check, not by the
lead-time check — the source tests `two_reservations_per_week` before
`one_hour_from_now_or_less`, the opposite of the order the claim states. -/
theorem C6_counterexample_quota_checked_first :
    two_reservations_per_week johnWeekLedger "John" (dtm 2023 5 24 10 0) = true ∧
    one_hour_from_now_or_less (dtm 2023 5 24 9 30) (dtm 2023 5 24 10 0) = true ∧
    bookingChecks johnWeekLedger (dtm 2023 5 24 9 30) (some "John")
        (some (dtm 2023 5 24 10 0)) = BookingOutcome.quotaReached ∧
    BookingOutcome.quotaReached ≠ BookingOutcome.leadTimeViolated :=
  ⟨by decide, by decide, by decide, by decide⟩

/-- C6 amended: the booking checks short-circuit in the order input
validation, weekly quota, lead time; hence a request that violates both
the quota and the lead-time rule is rejected on the quota check (and a
request passing the quota but violating the lead time is rejected on the
lead-time check). -/
theorem C6_validation_quota_then_leadtime :
    ∀ (c : Court) (now : DT) (name : String) (start_dt : DT),
      (two_reservations_per_week c name start_dt = true →
        bookingChecks c now (some name) (some start_dt) = BookingOutcome.quotaReached) ∧
      (two_reservations_per_week c name start_dt = false →
        one_hour_from_now_or_less now start_dt = true →
        bookingChecks c now (some name) (some start_dt) = BookingOutcome.leadTimeViolated) := by
  intro c now name s
  constructor
  · intro h
    simp [bookingChecks, h]
  · intro h1 h2
    simp [bookingChecks, h1, h2]

/-- Witness for the amended C6 at the concrete double-violation input. -/
theorem C6_validation_quota_then_leadtime_witness :
    two_reservations_per_week johnWeekLedger "John" (dtm 2023 5 24 10 0) = true ∧
    bookingChecks johnWeekLedger (dtm 2023 5 24 9 30) (some "John")
        (some (dtm 2023 5 24 10 0)) = BookingOutcome.quotaReached :=
  ⟨by decide,
   (C6_validation_quota_then_leadtime johnWeekLedger (dtm 2023 5 24 9 30) "John"
     (dtm 2023 5 24 10 0)).1 (by decide)⟩

/-- C7 counterexample: the grouped (json) export stores a reservation
under the day key of its start and keeps only `"%H:%M"` for the end time,
so a reservation crossing midnight — here 2023-05-28 13:00 to
2023-05-29 13:00 — re-parses (day key plus end time) to an end of
2023-05-28 13:00, a different instant from the exported reservation's end:
the grouped round trip does not reproduce `end`. -/
theorem C7_counterexample_grouped_end_loses_day :
    save_schedule_json [⟨"John", dtm 2023 5 28 13 0, dtm 2023 5 29 13 0⟩]
        (ymd2ord 2023 5 28) (ymd2ord 2023 5 30)
      = [(⟨28, 5, 2023⟩, [⟨"John", (13, 0), (13, 0)⟩])] ∧
    parseJsonTime ⟨28, 5, 2023⟩ (13, 0) = some (dtm 2023 5 28 13 0) ∧
    (dtm 2023 5 28 13 0 : DT) ≠ dtm 2023 5 29 13 0 :=
  ⟨by decide, by decide, by decide⟩

/-- C7 amended: for every ledger of representable instants and every date
range, re-parsing the tabular (csv) records reproduces each exported
reservation's subject, start and end; for the grouped (json) format, each
exported reservation has an entry whose subject and start are reproduced
via the day key and the `"HH:MM"` start time, and whose end is reproduced
via the day key and the `"HH:MM"` end time provided the reservation's end
falls on the same calendar day as its start (the day key records only the
start's date). -/
theorem C7_export_roundtrip :
    (∀ (c : Court) (sd ed : Nat), (∀ r ∈ c, InRangeRsvn r) →
      (save_schedule_csv c sd ed).map parseCsvRow
        = (filtered_reservations c sd ed).map
            (fun r => (r.name, some r.start_date, some r.end_date))) ∧
    (∀ (c : Court) (sd ed : Nat), (∀ r ∈ c, InRangeRsvn r) →
      ∀ r ∈ filtered_reservations c sd ed,
        ∃ es, (dayKeyOf r.start_date, es) ∈ save_schedule_json c sd ed ∧
          ∃ e ∈ es, e.name = r.name ∧
            parseJsonTime (dayKeyOf r.start_date) e.start_time = some r.start_date ∧
            (ordOf r.end_date = ordOf r.start_date →
              parseJsonTime (dayKeyOf r.start_date) e.end_time = some r.end_date)) := by
  constructor
  · intro c sd ed hrange
    rw [save_schedule_csv, List.map_map]
    refine List.map_congr_left ?_
    intro r hr
    have hrc : r ∈ c := (List.mem_filter.mp hr).1
    obtain ⟨hstart, hend⟩ := hrange r hrc
    simp only [Function.comp_apply, parseCsvRow]
    rw [strptime_strftime _ hstart, strptime_strftime _ hend]
  · intro c sd ed hrange r hr
    have hrc : r ∈ c := (List.mem_filter.mp hr).1
    obtain ⟨hstart, hend⟩ := hrange r hrc
    obtain ⟨es, hmem, he⟩ := EntryIn_foldl_self (filtered_reservations c sd ed) [] r hr
    refine ⟨es, hmem, ⟨r.name, hmOf r.start_date, hmOf r.end_date⟩, he, rfl, ?_, ?_⟩
    · rw [parseJsonTime_eq]
      exact strptime_strftime _ hstart
    · intro hsame
      have hkey : dayKeyOf r.start_date = dayKeyOf r.end_date := by
        simp only [dayKeyOf, hsame]
      rw [hkey, parseJsonTime_eq]
      exact strptime_strftime _ hend

/-- Witness for the amended C7 at a concrete one-reservation ledger. -/
theorem C7_export_roundtrip_witness :
    (∀ r ∈ ([⟨"John", dtm 2023 5 28 13 0, dtm 2023 5 28 14 0⟩] : Court), InRangeRsvn r) ∧
    (save_schedule_csv [⟨"John", dtm 2023 5 28 13 0, dtm 2023 5 28 14 0⟩]
        (ymd2ord 2023 5 28) (ymd2ord 2023 5 28)).map parseCsvRow
      = (filtered_reservations [⟨"John", dtm 2023 5 28 13 0, dtm 2023 5 28 14 0⟩]
          (ymd2ord 2023 5 28) (ymd2ord 2023 5 28)).map
            (fun r => (r.name, some r.start_date, some r.end_date)) :=
  ⟨by decide,
   C7_export_roundtrip.1 [⟨"John", dtm 2023 5 28 13 0, dtm 2023 5 28 14 0⟩]
     (ymd2ord 2023 5 28) (ymd2ord 2023 5 28) (by decide)⟩
